import Mathlib

/-!
Verification of the excelite schema/type-inference engine.

A shallow embedding, in Lean 4, of the column/type model, column builder,
value parsers and SQL/DDL synthesis of the excelite repository (Go), together
with theorems settling the frozen claims about it.

Modelling conventions:
* Go strings are modelled as `List Char` (`Str`).  The repository only ever
  manipulates ASCII data in the fragments under study; byte-level versus
  rune-level indexing therefore coincides, and `unicode.ToUpper` /
  `unicode.ToLower` are modelled by their ASCII restrictions.
* Go's `unicode.IsSpace` is modelled on the ASCII whitespace characters.
* Go maps are modelled as association lists inserted in first-write order;
  whenever a Go `range` over a map feeds an order-sensitive computation the
  final result of the modelled function is order-independent (values are
  keyed by unique names and the output is sorted), so the deterministic
  model agrees with every Go schedule.
* Fallible Go functions returning `(T, error)` are modelled with `Except`.
-/

/-- Go strings, modelled as lists of characters. -/
abbrev Str := List Char

/-- Literal notation helper: the `List Char` of a Lean string literal. -/
def str (s : String) : Str := s.data

namespace GoStrings

/-- ASCII restriction of `unicode.ToLower` (as used by `strings.ToLower`). -/
def toLowerChar (c : Char) : Char :=
  if 'A' ≤ c ∧ c ≤ 'Z' then Char.ofNat (c.toNat + 32) else c

/-- ASCII restriction of `unicode.ToUpper` (as used by `strings.ToUpper`). -/
def toUpperChar (c : Char) : Char :=
  if 'a' ≤ c ∧ c ≤ 'z' then Char.ofNat (c.toNat - 32) else c

/-- Model of `strings.ToLower`. -/
def toLower (s : Str) : Str := s.map toLowerChar

/-- Go `unicode.IsSpace`, restricted to the ASCII whitespace characters. -/
def isSpaceGo (c : Char) : Bool :=
  c = ' ' ∨ c = '\t' ∨ c = '\n' ∨ c = '\x0b' ∨ c = '\x0c' ∨ c = '\r'

/-- Model of `strings.TrimSpace`: strip leading and trailing whitespace. -/
def trimSpace (s : Str) : Str :=
  ((s.dropWhile isSpaceGo).reverse.dropWhile isSpaceGo).reverse

/-- Model of `strings.HasPrefix`. -/
def hasPrefixGo (p s : Str) : Bool := p.isPrefixOf s

/-- Model of `strings.HasSuffix`. -/
def hasSuffix (p s : Str) : Bool := p.isSuffixOf s

/-- Model of `strings.TrimPrefix`: drop `p` from the front of `s` when present. -/
def trimPrefixGo (s p : Str) : Str :=
  if hasPrefixGo p s then s.drop p.length else s

/-- Model of `strings.TrimSuffix`: drop `p` from the end of `s` when present. -/
def trimSuffix (s p : Str) : Str :=
  if hasSuffix p s then s.take (s.length - p.length) else s

/-- Substring occurrence test, used to model `strings.Contains`. -/
def isSubstr (sub : Str) : Str → Bool
  | [] => sub.isEmpty
  | c :: rest => sub.isPrefixOf (c :: rest) || isSubstr sub rest

/-- Model of `strings.Contains`: substring test. -/
def containsStr (s sub : Str) : Bool := isSubstr sub s

/-- Model of `strings.ContainsAny`: does `s` contain any character of `chars`? -/
def containsAny (s chars : Str) : Bool := s.any (fun c => chars.contains c)

/-- Model of `strings.Split` with a single-character separator. -/
def splitChar (s : Str) (sep : Char) : List Str := s.splitOn sep

/-- Accumulator worker for `fields` (`cur` holds the current word reversed). -/
def fieldsAux (cur : Str) : Str → List Str
  | [] => if cur = [] then [] else [cur.reverse]
  | c :: rest =>
    if isSpaceGo c then
      if cur = [] then fieldsAux [] rest else cur.reverse :: fieldsAux [] rest
    else fieldsAux (c :: cur) rest

/-- Model of `strings.Fields`: split around runs of whitespace; no empty fields. -/
def fields (s : Str) : List Str := fieldsAux [] s

/-- Model of `strings.Join` with the empty separator (concatenation). -/
def joinAll (parts : List Str) : Str := parts.foldr (· ++ ·) []

/-- Decimal rendering of a natural number (Go `%d` for the indices used). -/
def natToStr (n : Nat) : Str := (toString n).data

/-- Go byte-wise lexicographic `<` on strings (ASCII model: by char code). -/
def strLt : Str → Str → Bool
  | [], [] => false
  | [], _ :: _ => true
  | _ :: _, [] => false
  | a :: as, b :: bs => if a < b then true else if b < a then false else strLt as bs

end GoStrings

open GoStrings

/-! ## types.go — the column/type model -/

/-- Model of `reflect.Type` values reachable in this code base. -/
inductive GoType where
  | int32 | int64 | float64 | bool | string | time | bytes
  | slice (elem : GoType)
deriving DecidableEq, Repr

/-- Model of `ColumnType` (types.go): semantic type descriptor.  `Ty` models the Go
`reflect.Type` field (`Type` is a Lean keyword). -/
inductive ColumnType where
  | mk (Ty : GoType) (SQLType : Str) (IsArray : Bool) (BaseType : Option ColumnType)

namespace ColumnType

def Ty : ColumnType → GoType | .mk t _ _ _ => t
def SQLType : ColumnType → Str | .mk _ s _ _ => s
def IsArray : ColumnType → Bool | .mk _ _ a _ => a
def BaseType : ColumnType → Option ColumnType | .mk _ _ _ b => b

end ColumnType

def Int32Type : ColumnType := .mk .int32 (str "INTEGER") false none
def Int64Type : ColumnType := .mk .int64 (str "BIGINT") false none
def Float64Type : ColumnType := .mk .float64 (str "REAL") false none
def BoolType : ColumnType := .mk .bool (str "BOOLEAN") false none
def StringType : ColumnType := .mk .string (str "TEXT") false none
def DateTimeType : ColumnType := .mk .time (str "DATETIME") false none
def BytesType : ColumnType := .mk .bytes (str "BLOB") false none

/-- Model of `Column` (types.go). -/
structure Column where
  Name : Str
  Ty : ColumnType
  Tags : Str
  IsUnique : Bool

/-- The non-array arm of `ParseColumnType`'s switch over the fixed synonym
table (types.go, the `switch typeStr` statement). -/
def parseScalarType (s : Str) : ColumnType :=
  if s = str "int" ∨ s = str "int32" ∨ s = str "integer" then Int32Type
  else if s = str "int64" ∨ s = str "bigint" then Int64Type
  else if s = str "float" ∨ s = str "float64" ∨ s = str "double" then Float64Type
  else if s = str "bool" ∨ s = str "boolean" then BoolType
  else if s = str "time" ∨ s = str "datetime" ∨ s = str "timestamp" ∨ s = str "date" then
    DateTimeType
  else if s = str "[]byte" ∨ s = str "blob" then BytesType
  else if s = str "string" ∨ s = str "text" ∨ s = str "varchar" then StringType
  else StringType

/-- The `ColumnType` literal built for an `array<...>` declaration
(`reflect.SliceOf(baseType.Type)`, `"TEXT"`, `IsArray`, `&baseType`); this
exact shape appears both in `ParseColumnType` (types.go) and in the aggregate
column of `BuildColumns` (culmnbuilder.go). -/
def mkArrayColumnType (base : ColumnType) : ColumnType :=
  .mk (.slice base.Ty) (str "TEXT") true (some base)

/-- The inner type string of an `array<...>` declaration:
`strings.TrimSuffix(strings.TrimPrefix(typeStr, "array<"), ">")`. -/
def innerTypeStr (s : Str) : Str := trimSuffix (trimPrefixGo s (str "array<")) (str ">")

/-- Fuel-indexed worker for `ParseColumnType`; the fuel only serves Lean's
structural recursion and is irrelevant whenever it exceeds the input length
(`parseColumnTypeF_fuel_irrel`). -/
def parseColumnTypeF : Nat → Str → ColumnType
  | 0, _ => StringType
  | fuel + 1, typeStr =>
    if hasPrefixGo (str "array<") (trimSpace (toLower typeStr)) ∧
        hasSuffix (str ">") (trimSpace (toLower typeStr)) then
      mkArrayColumnType (parseColumnTypeF fuel (innerTypeStr (trimSpace (toLower typeStr))))
    else
      parseScalarType (trimSpace (toLower typeStr))

/-- Model of `ParseColumnType` (types.go): parse a declared type string.  Recognizes
`array<X>` recursively; otherwise a fixed synonym table with `String` as the
permissive default.  Total: never returns an error. -/
def ParseColumnType (typeStr : Str) : ColumnType :=
  parseColumnTypeF (typeStr.length + 1) typeStr

/-- Model of `SQLTypeString` (types.go). -/
def ColumnType.SQLTypeString (ct : ColumnType) : Str :=
  if ct.IsArray then str "TEXT" else ct.SQLType

/-- The reserved system column names (`reservedColumnNames`, types.go). -/
def reservedColumnNames : List Str :=
  [str "id", str "created_at", str "updated_at", str "deleted_at"]

/-- Model of `IsReservedColumnName` (types.go). -/
def IsReservedColumnName (name : Str) : Bool :=
  reservedColumnNames.contains (toLower name)

/-- Model of `Relation` (types.go). -/
structure Relation where
  SourceTable : Str
  TargetTable : Str
  RelationType : Str
  ForeignKey : Str
  ReferenceKey : Str

/-- Model of `Table` (types.go). -/
structure Table where
  Name : Str
  SourceFile : Str
  TempFile : Str
  SheetName : Str
  Columns : List Column
  Relations : List Relation

/-! ## part_000 — quoting, default extraction and name normalization
(the `main`-package helper file) -/

/-- The SQLite reserved-word list (`sqliteReservedWords`, part_000; the
`exporter` package carries a byte-identical copy named `sqliteKeywords` in
part_001, modelled by this same list). -/
def sqliteReservedWords : List Str :=
  [str "abort", str "action", str "add", str "after", str "all",
   str "alter", str "analyze", str "and", str "as", str "asc",
   str "attach", str "autoincrement", str "before", str "begin",
   str "between", str "by", str "cascade", str "case", str "cast",
   str "check", str "collate", str "column", str "commit", str "conflict",
   str "constraint", str "create", str "cross", str "current",
   str "current_date", str "current_time", str "current_timestamp",
   str "database", str "default", str "deferrable", str "deferred",
   str "delete", str "desc", str "detach", str "distinct", str "drop",
   str "each", str "else", str "end", str "escape", str "except",
   str "exclusive", str "exists", str "explain", str "fail", str "for",
   str "foreign", str "from", str "full", str "glob", str "group",
   str "having", str "if", str "ignore", str "immediate", str "in",
   str "index", str "indexed", str "initially", str "inner", str "insert",
   str "instead", str "intersect", str "into", str "is", str "isnull",
   str "join", str "key", str "left", str "like", str "limit",
   str "match", str "natural", str "no", str "not", str "notnull",
   str "null", str "of", str "offset", str "on", str "or", str "order",
   str "outer", str "plan", str "pragma", str "primary", str "query",
   str "raise", str "recursive", str "references", str "regexp",
   str "reindex", str "release", str "rename", str "replace",
   str "restrict", str "right", str "rollback", str "row", str "savepoint",
   str "select", str "set", str "table", str "temp", str "temporary",
   str "then", str "to", str "transaction", str "trigger", str "union",
   str "unique", str "update", str "using", str "vacuum", str "values",
   str "view", str "virtual", str "when", str "where", str "with",
   str "without"]

/-- Wrap a name in double quotes. -/
def dquote (name : Str) : Str := str "\"" ++ name ++ str "\""

/-- Model of `QuoteIdentifier` (part_000, `main` package): quote exactly the reserved
words, case-insensitively. -/
def QuoteIdentifier (name : Str) : Str :=
  if sqliteReservedWords.contains (toLower name) then dquote name else name

/-- First index of `sub` in a string, `strings.Index` (none for Go's `-1`). -/
def indexOfAux (sub : Str) : Nat → Str → Option Nat
  | i, [] => if sub.isEmpty then some i else none
  | i, c :: rest => if sub.isPrefixOf (c :: rest) then some i else indexOfAux sub (i + 1) rest

/-- Model of `strings.Index`. -/
def indexOfStr (s sub : Str) : Option Nat := indexOfAux sub 0 s

/-- Model of `extractDefaultValue` (part_000): the substring after `default:` up to the
next `;` (or the end). -/
def extractDefaultValue (tags : Str) : Str :=
  match indexOfStr tags (str "default:") with
  | none => []
  | some idx =>
    let tail := tags.drop (idx + (str "default:").length)
    tail.take ((indexOfStr tail (str ";")).getD tail.length)

/-- Capitalize the first character of a word
(`strings.ToUpper(string(part[0])) + part[1:]`, ASCII/rune model). -/
def capFirst : Str → Str
  | [] => []
  | c :: rest => toUpperChar c :: rest

/-- Model of `FormatColumnName` (part_000): trim, split on whitespace, upper-case each
word's first character, and concatenate without separator. -/
def FormatColumnName (name : Str) : Str :=
  let name := trimSpace name
  if name = [] then []
  else joinAll ((fields name).map capFirst)

/-! ## part_005 — `parseTagToGORMTag` (`main` package) -/

/-- Split at the first occurrence of `sep`
(`strings.SplitN(s, sep, 2)` when `sep` occurs; otherwise `(s, [])`). -/
def breakAtChar (sep : Char) : Str → (Str × Str)
  | [] => ([], [])
  | c :: rest =>
    if c = sep then ([], rest)
    else
      let p := breakAtChar sep rest
      (c :: p.1, p.2)

/-- Model of `strings.Join` with a separator. -/
def joinWith (sep : Str) : List Str → Str
  | [] => []
  | [p] => p
  | p :: ps => p ++ sep ++ joinWith sep ps

/-- One iteration of `parseTagToGORMTag`'s loop body: the GORM fragment
contributed by a single trimmed, non-empty tag token (`[]` when the token
contributes nothing).  Value-bearing tokens use `=` and the keys are the tag
constants `size`, `default`, `fk` (types.go); bare tokens map over
`pk`/`unique`/`index`/`notnull`/`autoinc`. -/
def gormFragmentOfTag (tag : Str) : List Str :=
  if containsStr tag (str "=") then
    let kv := breakAtChar '=' tag
    let key := trimSpace kv.1
    if key = str "size" then [str "size:" ++ trimSpace kv.2]
    else if key = str "default" then [str "default:" ++ trimSpace kv.2]
    else if key = str "fk" then [str "foreignKey:" ++ trimSpace kv.2]
    else []
  else
    if tag = str "pk" then [str "primaryKey"]
    else if tag = str "unique" then [str "unique"]
    else if tag = str "index" then [str "index"]
    else if tag = str "notnull" then [str "not null"]
    else if tag = str "autoinc" then [str "autoIncrement"]
    else []

/-- Model of `parseTagToGORMTag` (part_005), first return value: the accumulated GORM
tag string (the second return value, the raw key/value map, is unused by the
callers embedded here). -/
def parseTagToGORMTag (tagStr : Str) : Str :=
  let gormTags :=
    (((splitChar tagStr ',').map trimSpace).filter (fun t => ¬ t = [])).flatMap
      gormFragmentOfTag
  if gormTags = [] then []
  else str "gorm:\"" ++ joinWith (str ";") gormTags ++ str "\""

/-! ## culmnbuilder.go — the Column Builder

Go maps (`processedNames`, `arrayColumnCounts`, `columnMap`) are modelled as
association lists kept in first-insertion order; `range` over
`arrayColumnCounts` is modelled in that insertion order (the final column
list is keyed by unique names and sorted, so the result does not depend on
the schedule of Go's randomized map iteration for the inputs reasoned about
below). -/

/-- Association-list model of a Go `map[string]α`: key membership. -/
def mapContains {α : Type} (m : List (Str × α)) (k : Str) : Bool :=
  m.any (fun p => p.1 = k)

/-- Association-list model of a Go `map[string]α`: lookup. -/
def mapGet {α : Type} (m : List (Str × α)) (k : Str) : Option α :=
  (m.find? (fun p => p.1 = k)).map (fun p => p.2)

/-- Association-list model of a Go `map[string]α`: assignment `m[k] = v`. -/
def mapInsert {α : Type} (m : List (Str × α)) (k : Str) (v : α) : List (Str × α) :=
  if mapContains m k then m.map (fun p => if p.1 = k then (k, v) else p)
  else m ++ [(k, v)]

/-- Association-list model of `m[k]++` on a Go `map[string]int`. -/
def mapIncr (m : List (Str × Nat)) (k : Str) : List (Str × Nat) :=
  mapInsert m k ((mapGet m k).getD 0 + 1)

/-- First pass of `BuildColumns`: formats every non-blank field name into
`processedNames` and counts `array<`-typed occurrences per formatted name in
`arrayColumnCounts`. -/
def buildPass1 (types : List Str) :
    Nat → List Str → List (Str × Str) × List (Str × Nat) →
    List (Str × Str) × List (Str × Nat)
  | _, [], st => st
  | i, name :: rest, (pn, ac) =>
    let name := trimSpace name
    if name = [] ∨ types.length ≤ i then buildPass1 types (i + 1) rest (pn, ac)
    else
      let typeStr := trimSpace (types.getD i [])
      let formattedName := FormatColumnName name
      buildPass1 types (i + 1) rest
        (mapInsert pn name formattedName,
         if hasPrefixGo (str "array<") typeStr then mapIncr ac formattedName else ac)

/-- The `baseTypeStr` search inside the array pass of `BuildColumns`: the
inner type string of the first field whose trimmed name equals `origName`. -/
def findBaseTypeStr (types : List Str) : Nat → List Str → Str → Str
  | _, [], _ => []
  | i, fieldName :: rest, origName =>
    if trimSpace fieldName = origName ∧ i < types.length then
      innerTypeStr (trimSpace (types.getD i []))
    else findBaseTypeStr types (i + 1) rest origName

/-- The error message for a reserved column name (culmnbuilder.go). -/
def reservedNameError (name : Str) : Str :=
  str "column name '" ++ name ++ str "' is reserved by the system"

/-- The aggregate array `Column` of `BuildColumns` (tag `gorm:"type:text"`). -/
def aggregateColumn (formattedName : Str) (baseType : ColumnType) : Column :=
  ⟨formattedName, mkArrayColumnType baseType, str "gorm:\"type:text\"", false⟩

/-- The per-index scalar expansion `Column` `Name_i` of `BuildColumns`
(tag ``gorm:"column:<lower>_<i>"``). -/
def scalarExpansionColumn (formattedName : Str) (baseType : ColumnType) (i : Nat) : Column :=
  ⟨formattedName ++ str "_" ++ natToStr i, baseType,
   str "gorm:\"column:" ++ toLower formattedName ++ str "_" ++ natToStr i ++ str "\"", false⟩

/-- The inner `for i := 0; i < count; i++` loop of the array pass: add the
`count` scalar expansion columns. -/
def addScalarColumns (formattedName : Str) (baseType : ColumnType) (count : Nat)
    (m : List (Str × Column)) : List (Str × Column) :=
  (List.range count).foldl
    (fun m i => mapInsert m (formattedName ++ str "_" ++ natToStr i)
      (scalarExpansionColumn formattedName baseType i)) m

/-- The array pass of `BuildColumns` (`for origName, count := range
arrayColumnCounts`), modelled in insertion order. -/
def buildArrayPass (fieldNames types : List Str) (pn : List (Str × Str)) :
    List (Str × Nat) → List (Str × Column) → Except Str (List (Str × Column))
  | [], m => .ok m
  | (origName, count) :: rest, m =>
    let formattedName := (mapGet pn origName).getD []
    if IsReservedColumnName formattedName then .error (reservedNameError formattedName)
    else
      let baseTypeStr := findBaseTypeStr types 0 fieldNames origName
      if baseTypeStr = [] then buildArrayPass fieldNames types pn rest m
      else
        let baseType := ParseColumnType baseTypeStr
        let m := mapInsert m formattedName (aggregateColumn formattedName baseType)
        buildArrayPass fieldNames types pn rest (addScalarColumns formattedName baseType count m)

/-- The plain-column pass of `BuildColumns` (`for i, origName := range
cb.fieldNames`). -/
def buildNormalPass (types tags : List Str) (pn : List (Str × Str)) :
    Nat → List Str → List (Str × Column) → Except Str (List (Str × Column))
  | _, [], m => .ok m
  | i, name :: rest, m =>
    let origName := trimSpace name
    if origName = [] ∨ types.length ≤ i then buildNormalPass types tags pn (i + 1) rest m
    else
      let formattedName := (mapGet pn origName).getD []
      if IsReservedColumnName formattedName then .error (reservedNameError formattedName)
      else if mapContains m formattedName then buildNormalPass types tags pn (i + 1) rest m
      else
        let typeStr := trimSpace (types.getD i [])
        let tagValue := if i < tags.length then trimSpace (tags.getD i []) else []
        if containsStr tagValue (str "design") then buildNormalPass types tags pn (i + 1) rest m
        else
          buildNormalPass types tags pn (i + 1) rest
            (mapInsert m formattedName
              ⟨formattedName, ParseColumnType typeStr, parseTagToGORMTag tagValue,
               containsStr tagValue (str "unique")⟩)

/-- The final `sort.Slice(columns, func(i, j) { return columns[i].Name <
columns[j].Name })`: sort by name (names are unique map keys, so any sound
sort yields Go's result). -/
def sortColumnsByName (cols : List Column) : List Column :=
  cols.insertionSort (fun a b => ¬ strLt b.Name a.Name = true)

/-- Model of `BuildColumns` (culmnbuilder.go): build the column list of one sheet from
the parallel raw name/type/tag rows. -/
def BuildColumns (fieldNames types tags : List Str) : Except Str (List Column) :=
  let st := buildPass1 types 0 fieldNames ([], [])
  match buildArrayPass fieldNames types st.1 st.2 [] with
  | .error e => .error e
  | .ok m =>
    match buildNormalPass types tags st.1 0 fieldNames m with
    | .error e => .error e
    | .ok m => .ok (sortColumnsByName (m.map (fun p => p.2)))

/-! ## generator.go — SQL schema and INSERT synthesis -/

/-- Fueled worker for the unbounded probe loop `for i := 0; ; i++` inside
`generateSQLSchema`'s array branch.  The loop stops at the first index `i`
with no column named `<base>_<i>`; consecutive hits are pairwise distinct
columns, so the loop body runs at most `cols.length` times and a fuel of
`cols.length + 1` reproduces the unbounded loop exactly. -/
def probeScalarDefsF (cols : List Column) (colName baseSQL : Str) : Nat → Nat → List Str
  | _, 0 => []
  | i, fuel + 1 =>
    let arrayColName := colName ++ str "_" ++ natToStr i
    if cols.any (fun c => c.Name = arrayColName) then
      (str "    " ++ QuoteIdentifier arrayColName ++ str " " ++ baseSQL)
        :: probeScalarDefsF cols colName baseSQL (i + 1) fuel
    else []

/-- The expansion-column clauses probed for one aggregate array column. -/
def probeScalarDefs (cols : List Column) (colName baseSQL : Str) : List Str :=
  probeScalarDefsF cols colName baseSQL 0 (cols.length + 1)

/-- The non-array column clause of `generateSQLSchema`: quoted name, storage
type, then optional `UNIQUE`, `NOT NULL` and `DEFAULT` suffixes. -/
def plainColumnDef (col : Column) : Str :=
  str "    " ++ QuoteIdentifier col.Name ++ str " " ++ col.Ty.SQLTypeString
    ++ (if col.IsUnique then str " UNIQUE" else [])
    ++ (if containsStr col.Tags (str "not null") then str " NOT NULL" else [])
    ++ (if extractDefaultValue col.Tags = [] then []
        else str " DEFAULT " ++ extractDefaultValue col.Tags)

/-- The `columnDefs` accumulation loop of `generateSQLSchema`, carrying the
`processedArrayColumns` set.  A nil `BaseType` on an array column would be a
Go nil-pointer dereference; it is modelled by `getD StringType` and is
unreachable for columns produced by `BuildColumns` (their `BaseType` is
always present on arrays). -/
def generateColumnDefsAux (allCols : List Column) :
    List Column → List Str → List Str
  | [], _ => []
  | col :: rest, processed =>
    if col.Ty.IsArray then
      if processed.contains col.Name then generateColumnDefsAux allCols rest processed
      else
        (str "    " ++ QuoteIdentifier col.Name ++ str " TEXT")
          :: (probeScalarDefs allCols col.Name ((col.Ty.BaseType.getD StringType).SQLTypeString)
              ++ generateColumnDefsAux allCols rest (processed ++ [col.Name]))
    else
      if processed.any (fun baseName => hasPrefixGo (baseName ++ str "_") col.Name) then
        generateColumnDefsAux allCols rest processed
      else
        plainColumnDef col :: generateColumnDefsAux allCols rest processed

/-- The `columnDefs` list built by `generateSQLSchema` for a table. -/
def generateColumnDefs (table : Table) : List Str :=
  generateColumnDefsAux table.Columns table.Columns []

/-- The `indexDefs` list of `generateSQLSchema`: one
`CREATE INDEX IF NOT EXISTS` statement per column whose tags mention
`index`. -/
def generateIndexDefs (table : Table) : List Str :=
  (table.Columns.filter (fun c => containsStr c.Tags (str "index"))).map (fun col =>
    str "CREATE INDEX IF NOT EXISTS "
      ++ QuoteIdentifier (str "idx_" ++ toLower table.Name ++ str "_" ++ toLower col.Name)
      ++ str " ON " ++ QuoteIdentifier (toLower table.Name)
      ++ str " (" ++ QuoteIdentifier col.Name ++ str ");")

/-- Model of `generateSQLSchema` (generator.go): the full schema text written to the
`.sql` file (file I/O elided). -/
def generateSQLSchema (table : Table) : Str :=
  str "CREATE TABLE " ++ QuoteIdentifier (toLower table.Name) ++ str " (\n"
    ++ str "    id INTEGER PRIMARY KEY AUTOINCREMENT,\n"
    ++ str "    created_at DATETIME,\n"
    ++ str "    updated_at DATETIME,\n"
    ++ str "    deleted_at DATETIME,\n"
    ++ joinWith (str ",\n") (generateColumnDefs table) ++ str "\n);"
    ++ (if generateIndexDefs table = [] then []
        else str "\n\n" ++ joinWith (str "\n") (generateIndexDefs table))

/-- The quoted column-name list `cols` built by `prepareInsertSQL`. -/
def insertColumnNames (table : Table) : List Str :=
  table.Columns.map (fun col => QuoteIdentifier col.Name)

/-- Model of `prepareInsertSQL` (generator.go). -/
def prepareInsertSQL (table : Table) : Str :=
  str "INSERT INTO " ++ QuoteIdentifier (toLower table.Name)
    ++ str " (" ++ joinWith (str ", ") (insertColumnNames table)
    ++ str ") VALUES ("
    ++ joinWith (str ", ") (List.replicate table.Columns.length (str "?")) ++ str ")"

/-! ## typeparser.go — the DateTime value parser

`time.Parse` is embedded for exactly the eight layouts of `NewTimeParser`.
None of those layouts contains a zone token (the trailing `Z` is a literal
character in Go's reference-layout grammar), so a successful parse always
yields a UTC time; `t.UTC()` is modelled as setting the `isUTC` flag. -/

/-- The result of `time.Parse` for the layouts used here (clock fields plus
nanoseconds; `isUTC` models `t.Location() == time.UTC`). -/
structure GoTime where
  year : Nat
  month : Nat
  day : Nat
  hour : Nat
  minute : Nat
  sec : Nat
  nsec : Nat
  isUTC : Bool
deriving DecidableEq, Repr

/-- Model of `t.UTC()`. -/
def GoTime.toUTC (t : GoTime) : GoTime := { t with isUTC := true }

/-- The zero `time.Time` (year 1, January 1, UTC). -/
def zeroGoTime : GoTime := ⟨1, 1, 1, 0, 0, 0, 0, true⟩

/-- Structure of one layout string of `NewTimeParser`: a date optionally
followed by a separator, a clock, an optional fractional second and an
optional literal `Z`. -/
inductive TimeLayout where
  | dateTime (sep : Char) (frac : Bool) (litZ : Bool)
  | dateOnly

/-- Model of `timeFormat` (typeparser.go): a layout plus its `hasChanged` flag. -/
structure timeFormat where
  format : TimeLayout
  hasChanged : Bool

/-- The fixed ordered format list of `NewTimeParser`:
`2006-01-02 15:04:05.999`, `2006-01-02 15:04:05.999Z`,
`2006-01-02T15:04:05.999`, `2006-01-02T15:04:05.999Z`,
`2006-01-02 15:04:05`, `2006-01-02T15:04:05`, `2006-01-02T15:04:05Z`,
`2006-01-02`. -/
def timeParserFormats : List timeFormat :=
  [⟨.dateTime ' ' true false, false⟩,
   ⟨.dateTime ' ' true true, true⟩,
   ⟨.dateTime 'T' true false, false⟩,
   ⟨.dateTime 'T' true true, true⟩,
   ⟨.dateTime ' ' false false, false⟩,
   ⟨.dateTime 'T' false false, false⟩,
   ⟨.dateTime 'T' false true, true⟩,
   ⟨.dateOnly, false⟩]

/-- A decimal digit's value. -/
def digit? (c : Char) : Option Nat := if c.isDigit then some (c.toNat - 48) else none

/-- Exactly two digits (Go `getnum` with `fixed`). -/
def parse2 : Str → Option (Nat × Str)
  | a :: b :: rest =>
    match digit? a, digit? b with
    | some x, some y => some (10 * x + y, rest)
    | _, _ => none
  | _ => none

/-- One or two digits (Go `getnum` without `fixed`, used for the hour). -/
def parse1or2 : Str → Option (Nat × Str)
  | [] => none
  | a :: rest =>
    match digit? a with
    | none => none
    | some x =>
      match rest with
      | b :: rest2 =>
        match digit? b with
        | some y => some (10 * x + y, rest2)
        | none => some (x, rest)
      | [] => some (x, [])

/-- Exactly four digits (Go `stdLongYear`). -/
def parse4 : Str → Option (Nat × Str)
  | a :: b :: c :: d :: rest =>
    match digit? a, digit? b, digit? c, digit? d with
    | some w, some x, some y, some z => some (1000 * w + 100 * x + 10 * y + z, rest)
    | _, _, _, _ => none
  | _ => none

/-- A single literal layout character. -/
def parseLit (c : Char) : Str → Option Str
  | d :: rest => if d = c then some rest else none
  | [] => none

/-- Nanoseconds from a digit run (Go `parseNanoseconds`: at most the first
nine digits count, scaled to nanoseconds). -/
def nsecOfDigits (ds : Str) : Nat :=
  ((ds.take 9).foldl (fun acc c => 10 * acc + (c.toNat - 48)) 0) * 10 ^ (9 - min ds.length 9)

/-- Optional fractional second (Go `stdFracSecond9` while parsing: consumed
only when a `.` followed by a digit is present, and then takes every
following digit). -/
def parseFracOpt : Str → Nat × Str
  | '.' :: c :: rest =>
    if c.isDigit then
      (nsecOfDigits (c :: rest.takeWhile Char.isDigit), rest.dropWhile Char.isDigit)
    else (0, '.' :: c :: rest)
  | s => (0, s)

/-- Go `isLeap`. -/
def isLeap (y : Nat) : Bool := y % 4 = 0 ∧ (y % 100 ≠ 0 ∨ y % 400 = 0)

/-- Go `daysIn`: days in a month. -/
def daysIn (m y : Nat) : Nat :=
  if m = 2 then (if isLeap y then 29 else 28)
  else if m = 4 ∨ m = 6 ∨ m = 9 ∨ m = 11 then 30
  else 31

/-- The date range checks of `time.Parse`. -/
def validDate (y mo d : Nat) : Bool :=
  1 ≤ mo ∧ mo ≤ 12 ∧ 1 ≤ d ∧ d ≤ daysIn mo y

/-- The common `2006-01-02` date prefix of every layout. -/
def parseDatePart (v : Str) : Option (Nat × Nat × Nat × Str) := do
  let (y, v) ← parse4 v
  let v ← parseLit '-' v
  let (mo, v) ← parse2 v
  let v ← parseLit '-' v
  let (d, v) ← parse2 v
  pure (y, mo, d, v)

/-- Model of `time.Parse` for one of the eight layouts: parse all tokens, demand the
input be exhausted and the field ranges valid. -/
def goTimeParse (layout : TimeLayout) (v : Str) : Option GoTime := do
  let (y, mo, d, v) ← parseDatePart v
  match layout with
  | .dateOnly =>
    if v = [] ∧ validDate y mo d then some ⟨y, mo, d, 0, 0, 0, 0, true⟩ else none
  | .dateTime sep frac litZ =>
    let v ← parseLit sep v
    let (h, v) ← parse1or2 v
    let v ← parseLit ':' v
    let (mi, v) ← parse2 v
    let v ← parseLit ':' v
    let (se, v) ← parse2 v
    let p := if frac then parseFracOpt v else (0, v)
    let v ← if litZ then parseLit 'Z' p.2 else some p.2
    if v = [] ∧ validDate y mo d ∧ h ≤ 23 ∧ mi ≤ 59 ∧ se ≤ 59 then
      some ⟨y, mo, d, h, mi, se, p.1, true⟩
    else none

/-- The post-parse normalization step of `TimeParser.Parse`: when the matched
format carried no zone marker (`hasChanged` false) and the literal value
contains none of `Z`, `z`, `+`, `-`, a value with a nonzero clock is
normalized to UTC (`t = t.UTC()`); date-only values are left as-is. -/
def timeNormalize (tf : timeFormat) (value : Str) (t : GoTime) : GoTime :=
  if ¬ tf.hasChanged ∧ ¬ containsAny value (str "Zz+-") then
    if t.hour ≠ 0 ∨ t.minute ≠ 0 ∨ t.sec ≠ 0 then t.toUTC else t
  else t

/-- The parse-error value of `TimeParser.Parse` (the Go message also carries
the last underlying `time.Parse` error, elided here). -/
def timeParseError (columnName value : Str) : Str :=
  str "column " ++ columnName ++ str ": failed to parse date '" ++ value ++ str "'"

/-- The format loop of `TimeParser.Parse`: first successful format wins. -/
def timeParseLoop (columnName value : Str) : List timeFormat → Except Str GoTime
  | [] => .error (timeParseError columnName value)
  | tf :: rest =>
    match goTimeParse tf.format value with
    | some t => .ok (timeNormalize tf value t)
    | none => timeParseLoop columnName value rest

/-- Model of `TimeParser.Parse` (typeparser.go): trim; blank yields the zero value;
otherwise try the fixed format list in order. -/
def TimeParser.Parse (columnName value : Str) : Except Str GoTime :=
  let value := trimSpace value
  if value = [] then .ok zeroGoTime
  else timeParseLoop columnName value timeParserFormats

/-! ## The `exporter` package (src/exporter and part_001, part_002, part_004)

The exporter carries byte-identical copies of the type registry
(`ParseColumnType`, the `ColumnType` shape) and of the reserved-word list;
those copies are modelled by the `main`-package definitions above, and the
exporter-specific code below lives in the `exporter` namespace. -/

namespace exporter

/-- Model of `Tag` (exporter/tags.go). -/
inductive Tag where
  | TagNone | TagUnique | TagIndex | TagNotNull | TagAutoIncrement | TagPrimaryKey
  | TagDefault | TagForeignKey | TagDesign | TagSize | TagIgnore | TagReadOnly
  | TagWriteOnly | TagValidate
deriving DecidableEq, Repr

/-- Model of `TagInfo` (exporter/tags.go); only the fields consulted by the embedded
functions (`Name`, `HasValue`) are modelled — `Description` and the
per-framework format strings are output metadata used nowhere here. -/
structure TagInfo where
  Name : Str
  HasValue : Bool

/-- The entries of `tagInfoMap` (exporter/tags.go).  The map contains exactly
six entries — in particular there is no entry for `TagDesign`. -/
def tagInfoEntries : List (Tag × TagInfo) :=
  [(.TagUnique, ⟨str "unique", false⟩),
   (.TagIndex, ⟨str "index", false⟩),
   (.TagNotNull, ⟨str "notnull", false⟩),
   (.TagDefault, ⟨str "default", true⟩),
   (.TagSize, ⟨str "size", true⟩),
   (.TagValidate, ⟨str "validate", true⟩)]

/-- Lookup in `tagInfoMap`. -/
def tagInfoMap (t : Tag) : Option TagInfo :=
  (tagInfoEntries.find? (fun p => p.1 = t)).map (fun p => p.2)

/-- Model of `TagValue` (exporter/tags.go). -/
structure TagValue where
  Tag : Tag
  Value : Str
deriving DecidableEq, Repr

/-- Model of `NormalizeTagString` (exporter/tags.go): lower-case, trim, and strip
every `-` and `_`. -/
def NormalizeTagString (s : Str) : Str :=
  (trimSpace (toLower s)).filter (fun c => ¬ (c = '-' ∨ c = '_'))

/-- Model of `ParseTag` (exporter/tags.go): match the normalized token against the
entries of `tagInfoMap` by name; unmatched tokens yield `TagNone`. -/
def ParseTag (s : Str) : Tag :=
  match tagInfoEntries.find? (fun p => p.2.Name = NormalizeTagString s) with
  | some p => p.1
  | none => .TagNone

/-- Model of `ParseTagWithValue` (exporter/tags.go): split on the first `:`; the value
half is kept only when the matched tag is value-bearing. -/
def ParseTagWithValue (s : Str) : TagValue :=
  let kv := breakAtChar ':' s
  let tag := ParseTag kv.1
  let value :=
    if containsStr s (str ":") ∧ ((tagInfoMap tag).map (fun i => i.HasValue)).getD false then
      kv.2
    else []
  ⟨tag, value⟩

/-- Model of `parseTags` (part_004): comma-split, trim, drop empties. -/
def parseTags (tagStr : Str) : List Str :=
  ((splitChar tagStr ',').map trimSpace).filter (fun t => ¬ t = [])

/-- Model of `ParseColumnTags` (exporter/tags.go): parse each token and drop
`TagNone`. -/
def ParseColumnTags (tagStrs : List Str) : List TagValue :=
  (tagStrs.map ParseTagWithValue).filter (fun tv => ¬ tv.Tag = .TagNone)

/-- Model of `HasTag` (exporter/tags.go). -/
def HasTag (tags : List TagValue) (tag : Tag) : Bool :=
  tags.any (fun t => t.Tag = tag)

/-- Model of `GetTagValue` (exporter/tags.go): the value of the first occurrence of
`tag` (Go returns `(value, ok)`). -/
def GetTagValue (tags : List TagValue) (tag : Tag) : Option Str :=
  (tags.find? (fun t => t.Tag = tag)).map (fun t => t.Value)

/-- Model of `Column` (exporter/part_001): tags are structured `TagValue`s here. -/
structure Column where
  Name : Str
  Ty : ColumnType
  Tags : List TagValue
  IsUnique : Bool

/-- Model of `Table` (exporter/part_001).  The `Rows` field carries parsed data values
and is consulted by none of the functions embedded here; it is omitted. -/
structure Table where
  Name : Str
  SheetName : Str
  Columns : List Column
  Relations : List Relation

/-- Model of `ParseColumnName` (part_004): byte-identical body to the `main` package's
`FormatColumnName`. -/
def ParseColumnName (name : Str) : Str :=
  let name := trimSpace name
  if name = [] then []
  else joinAll ((fields name).map capFirst)

/-- Model of `formatTableName` (part_004): like `ParseColumnName` but also
lower-cases the remainder of every word. -/
def formatTableName (name : Str) : Str :=
  joinAll ((fields (trimSpace name)).map (fun part =>
    match part with
    | [] => []
    | c :: rest => toUpperChar c :: toLower rest))

/-- The column loop of `parseSheet` (part_004): walk the name row; skip blank
names; skip columns whose parsed tag set carries `TagDesign`; otherwise emit
one column.  Go indexes the tag and type rows without bounds checks
(a shorter row would panic); out-of-range access is modelled as `""`. -/
def parseSheetColumns (columnTags columnTypes : List Str) : Nat → List Str → List Column
  | _, [] => []
  | i, nameRaw :: rest =>
    let name := ParseColumnName nameRaw
    if name = [] then parseSheetColumns columnTags columnTypes (i + 1) rest
    else
      let tagValeus := ParseColumnTags (parseTags (columnTags.getD i []))
      let typeStr := trimSpace (columnTypes.getD i [])
      if HasTag tagValeus .TagDesign then parseSheetColumns columnTags columnTypes (i + 1) rest
      else
        ⟨name, ParseColumnType typeStr, tagValeus, HasTag tagValeus .TagUnique⟩
          :: parseSheetColumns columnTags columnTypes (i + 1) rest

/-- Model of `parseSheet` (part_004): rows 1/2/3 are names/tags/types.  The Go
function's error return is always nil. -/
def parseSheet (sheetName : Str) (rows : List (List Str)) : Table :=
  { Name := formatTableName sheetName
    SheetName := sheetName
    Columns := parseSheetColumns (rows.getD 1 []) (rows.getD 2 []) 0 (rows.getD 0 [])
    Relations := [] }

/-- Model of `QuoteIdentifier` (part_001, `exporter` package): quote reserved words,
and also names containing a space or one of `-+()[]{}.,;`. -/
def QuoteIdentifier (name : Str) : Str :=
  if sqliteReservedWords.contains (toLower name) then dquote name
  else if containsAny name (str " -+()[]\x7b\x7d.,;") then dquote name
  else name

/-- Model of `SQLiteType` (part_001). -/
inductive SQLiteType where
  | SQLiteNone | SQLiteInteger | SQLiteReal | SQLiteText | SQLiteBlob
  | SQLiteDateTime | SQLiteBoolean
deriving DecidableEq, Repr

/-- Model of `SQLiteType.String` (part_001): the `Name` of `sqliteTypeInfoMap`'s
entry, `TEXT` for types without an entry. -/
def SQLiteType.string : SQLiteType → Str
  | .SQLiteInteger => str "INTEGER"
  | .SQLiteReal => str "REAL"
  | .SQLiteText => str "TEXT"
  | .SQLiteBlob => str "BLOB"
  | .SQLiteDateTime => str "DATETIME"
  | .SQLiteBoolean => str "INTEGER"
  | .SQLiteNone => str "TEXT"

/-- Model of `GetSQLiteType` (part_001): `time.Time` first, then arrays as TEXT, then
by reflection kind (`[]byte` → BLOB, other slices → TEXT). -/
def GetSQLiteType (colType : ColumnType) : SQLiteType :=
  if colType.Ty = .time then .SQLiteDateTime
  else if colType.IsArray then .SQLiteText
  else
    match colType.Ty with
    | .bool => .SQLiteBoolean
    | .int32 => .SQLiteInteger
    | .int64 => .SQLiteInteger
    | .float64 => .SQLiteReal
    | .string => .SQLiteText
    | .bytes => .SQLiteBlob
    | .slice _ => .SQLiteText
    | .time => .SQLiteDateTime

/-- Model of `buildColumnConstraints` (part_002): `NOT NULL`, `UNIQUE`, `DEFAULT v`
in this order, space-joined, preceded by a space when non-empty. -/
def buildColumnConstraints (col : Column) : Str :=
  let constraints :=
    (if HasTag col.Tags .TagNotNull then [str "NOT NULL"] else [])
      ++ (if col.IsUnique || HasTag col.Tags .TagUnique then [str "UNIQUE"] else [])
      ++ (match GetTagValue col.Tags .TagDefault with
          | some v => [str "DEFAULT " ++ v]
          | none => [])
  if constraints = [] then [] else str " " ++ joinWith (str " ") constraints

/-- One column clause of `buildCreateTableQuery`. -/
def createTableColumnClause (col : Column) : Str :=
  str "  " ++ QuoteIdentifier col.Name ++ str " " ++ (GetSQLiteType col.Ty).string
    ++ buildColumnConstraints col

/-- Model of `buildCreateTableQuery` (part_002): `CREATE TABLE IF NOT EXISTS`, the
implicit `id` primary key, one clause per column, one `FOREIGN KEY` clause
per `belongsTo` relation.  (The `arrayFieldsUsed` map computed by the Go
function is dead code — never read — and is not modelled.) -/
def buildCreateTableQuery (table : Table) : Str :=
  str "CREATE TABLE IF NOT EXISTS " ++ QuoteIdentifier table.Name ++ str " (\n"
    ++ str "  id INTEGER PRIMARY KEY AUTOINCREMENT,\n"
    ++ joinWith (str ",\n") (table.Columns.map createTableColumnClause)
    ++ joinAll
      (((table.Relations.filter (fun r => r.RelationType = str "belongsTo")).map (fun rel =>
        str ",\n  FOREIGN KEY(" ++ QuoteIdentifier rel.ForeignKey ++ str ") REFERENCES "
          ++ QuoteIdentifier rel.TargetTable ++ str "(id)")))
    ++ str ");\n"

/-- The `CREATE INDEX` statements executed by `createIndices` (part_002):
one per `TagIndex` column, then one per `belongsTo` relation. -/
def createIndexStatements (table : Table) : List Str :=
  ((table.Columns.filter (fun c => HasTag c.Tags .TagIndex)).map (fun col =>
    str "CREATE INDEX IF NOT EXISTS idx_" ++ QuoteIdentifier table.Name ++ str "_"
      ++ QuoteIdentifier col.Name ++ str " ON " ++ QuoteIdentifier table.Name
      ++ str "(" ++ QuoteIdentifier col.Name ++ str ");"))
    ++ ((table.Relations.filter (fun r => r.RelationType = str "belongsTo")).map (fun rel =>
      str "CREATE INDEX IF NOT EXISTS idx_" ++ QuoteIdentifier table.Name ++ str "_"
        ++ QuoteIdentifier rel.ForeignKey ++ str " ON " ++ QuoteIdentifier table.Name
        ++ str "(" ++ QuoteIdentifier rel.ForeignKey ++ str ");"))

end exporter

/-! ## Auxiliary predicates used by the theorems -/

/-- The invariant of §3 of the specification, stated recursively: at every
level of a `ColumnType`, `BaseType` is present iff `IsArray` is set. -/
def WFColumnType : ColumnType → Bool
  | .mk _ _ isArr none => !isArr
  | .mk _ _ isArr (some b) => isArr && WFColumnType b

/-- The tokens of `ParseColumnType`'s fixed synonym table. -/
def typeSynonyms : List Str :=
  [str "int", str "int32", str "integer", str "int64", str "bigint",
   str "float", str "float64", str "double", str "bool", str "boolean",
   str "time", str "datetime", str "timestamp", str "date",
   str "[]byte", str "blob", str "string", str "text", str "varchar"]

/-- All characters of a string are non-whitespace. -/
def noWS (s : Str) : Prop := ∀ c ∈ s, isSpaceGo c = false

/-- Every column value of the modelled `columnMap` has a well-formed type. -/
def mapWF (m : List (Str × Column)) : Prop := ∀ p ∈ m, WFColumnType p.2.Ty = true

/-! ## Foundational string lemmas -/

private theorem length_dropWhile_le {α : Type} (p : α → Bool) (l : List α) :
    (l.dropWhile p).length ≤ l.length := by
  induction l with
  | nil => simp [List.dropWhile]
  | cons a l ih =>
    simp only [List.dropWhile]
    split
    · exact Nat.le_succ_of_le ih
    · simp

private theorem trimSpace_length_le (s : Str) : (trimSpace s).length ≤ s.length := by
  unfold trimSpace
  have h1 := length_dropWhile_le isSpaceGo s
  have h2 := length_dropWhile_le isSpaceGo (s.dropWhile isSpaceGo).reverse
  simp only [List.length_reverse] at *
  omega

private theorem isPrefixOf_iff_pre {p s : Str} : p.isPrefixOf s = true ↔ p <+: s :=
  List.isPrefixOf_iff_prefix

private theorem trimSuffix_length_le (s p : Str) : (trimSuffix s p).length ≤ s.length := by
  unfold trimSuffix
  split <;> simp [List.length_take]

private theorem trimPrefixGo_length (s p : Str) (h : hasPrefixGo p s = true) :
    (trimPrefixGo s p).length = s.length - p.length := by
  unfold trimPrefixGo
  rw [if_pos h, List.length_drop]

private theorem length_le_of_hasPrefixGo (s p : Str) (h : hasPrefixGo p s = true) :
    p.length ≤ s.length :=
  List.IsPrefix.length_le (isPrefixOf_iff_pre.mp h)

private theorem normType_length_le (t : Str) : (trimSpace (toLower t)).length ≤ t.length := by
  have hl := trimSpace_length_le (toLower t)
  simp only [toLower, List.length_map] at hl
  exact hl

private theorem innerType_length_le (t : Str)
    (hp : hasPrefixGo (str "array<") (trimSpace (toLower t)) = true) :
    (innerTypeStr (trimSpace (toLower t))).length ≤ t.length - 6 ∧ 6 ≤ t.length := by
  have hs := normType_length_le t
  have h6 := length_le_of_hasPrefixGo _ _ hp
  have h1 := trimPrefixGo_length _ _ hp
  have h2 := trimSuffix_length_le (trimPrefixGo (trimSpace (toLower t)) (str "array<")) (str ">")
  have h7 : (str "array<").length = 6 := rfl
  rw [h7] at h6 h1
  unfold innerTypeStr
  omega

private theorem parseColumnTypeF_fuel_irrel :
    ∀ f g t, t.length < f → t.length < g → parseColumnTypeF f t = parseColumnTypeF g t := by
  intro f
  induction f with
  | zero => intro g t hf; omega
  | succ f ih =>
    intro g t hf hg
    match g, hg with
    | g + 1, hg =>
      simp only [parseColumnTypeF]
      by_cases hcond : hasPrefixGo (str "array<") (trimSpace (toLower t)) = true ∧
          hasSuffix (str ">") (trimSpace (toLower t)) = true
      · rw [if_pos hcond, if_pos hcond]
        obtain ⟨hin, h6⟩ := innerType_length_le t hcond.1
        rw [ih g (innerTypeStr (trimSpace (toLower t))) (by omega) (by omega)]
      · rw [if_neg hcond, if_neg hcond]

/-- Specification-level unfolding of `ParseColumnType`, mirroring the Go
recursion exactly. -/
theorem ParseColumnType_eq (typeStr : Str) :
    ParseColumnType typeStr =
      if hasPrefixGo (str "array<") (trimSpace (toLower typeStr)) ∧
          hasSuffix (str ">") (trimSpace (toLower typeStr)) then
        mkArrayColumnType (ParseColumnType (innerTypeStr (trimSpace (toLower typeStr))))
      else
        parseScalarType (trimSpace (toLower typeStr)) := by
  show parseColumnTypeF (typeStr.length + 1) typeStr = _
  simp only [parseColumnTypeF]
  by_cases hcond : hasPrefixGo (str "array<") (trimSpace (toLower typeStr)) = true ∧
      hasSuffix (str ">") (trimSpace (toLower typeStr)) = true
  · rw [if_pos hcond, if_pos hcond]
    obtain ⟨hin, h6⟩ := innerType_length_le typeStr hcond.1
    rw [parseColumnTypeF_fuel_irrel typeStr.length
      ((innerTypeStr (trimSpace (toLower typeStr))).length + 1) _ (by omega) (by omega)]
    rfl
  · rw [if_neg hcond, if_neg hcond]

/-! ## Lemmas about `ParseColumnType` -/

theorem parseScalarType_isArray (s : Str) : (parseScalarType s).IsArray = false := by
  unfold parseScalarType
  split_ifs <;> rfl

theorem parseScalarType_wf (s : Str) : WFColumnType (parseScalarType s) = true := by
  unfold parseScalarType
  split_ifs <;> rfl

theorem parseScalarType_default (s : Str) (h : ¬ s ∈ typeSynonyms) :
    parseScalarType s = StringType := by
  unfold parseScalarType
  split_ifs <;>
    first
    | rfl
    | (exfalso
       apply h
       simp only [typeSynonyms, List.mem_cons, List.not_mem_nil, or_false]
       tauto)

theorem mkArrayColumnType_wf (b : ColumnType) :
    WFColumnType (mkArrayColumnType b) = WFColumnType b := by
  cases b with
  | mk t s a bt => simp [mkArrayColumnType, WFColumnType]

private theorem parseColumnType_wf_aux :
    ∀ n t, t.length ≤ n → WFColumnType (ParseColumnType t) = true := by
  intro n
  induction n with
  | zero =>
    intro t h
    have ht : t = [] := List.eq_nil_of_length_eq_zero (Nat.le_zero.mp h)
    subst ht
    rfl
  | succ n ih =>
    intro t h
    rw [ParseColumnType_eq t]
    by_cases hc : hasPrefixGo (str "array<") (trimSpace (toLower t)) = true ∧
        hasSuffix (str ">") (trimSpace (toLower t)) = true
    · rw [if_pos hc]
      obtain ⟨hin, h6⟩ := innerType_length_le t hc.1
      rw [mkArrayColumnType_wf]
      exact ih (innerTypeStr (trimSpace (toLower t))) (by omega)
    · rw [if_neg hc]
      exact parseScalarType_wf _

/-- Every result of `ParseColumnType` satisfies the `BaseType`-iff-`IsArray`
invariant at every nesting level. -/
theorem parseColumnType_wf (t : Str) : WFColumnType (ParseColumnType t) = true :=
  parseColumnType_wf_aux t.length t (Nat.le_refl _)

/-! ## The `BaseType`-iff-`IsArray` invariant through `BuildColumns` -/

theorem mapInsert_wf {m : List (Str × Column)} {k : Str} {v : Column}
    (hm : mapWF m) (hv : WFColumnType v.Ty = true) : mapWF (mapInsert m k v) := by
  unfold mapInsert
  split
  · intro p hp
    rw [List.mem_map] at hp
    obtain ⟨q, hq, hpq⟩ := hp
    by_cases hqk : q.1 = k
    · rw [if_pos hqk] at hpq
      rw [← hpq]
      exact hv
    · rw [if_neg hqk] at hpq
      rw [← hpq]
      exact hm q hq
  · intro p hp
    rcases List.mem_append.mp hp with hp | hp
    · exact hm p hp
    · rw [List.mem_singleton.mp hp]
      exact hv

theorem addScalarColumns_wf {base : ColumnType} (hb : WFColumnType base = true)
    (f : Str) (count : Nat) {m : List (Str × Column)} (hm : mapWF m) :
    mapWF (addScalarColumns f base count m) := by
  unfold addScalarColumns
  generalize List.range count = l
  induction l generalizing m with
  | nil => exact hm
  | cons i l ih =>
    exact ih (mapInsert_wf hm hb)

theorem buildArrayPass_wf (fieldNames types : List Str) (pn : List (Str × Str)) :
    ∀ (ac : List (Str × Nat)) (m m' : List (Str × Column)), mapWF m →
      buildArrayPass fieldNames types pn ac m = .ok m' → mapWF m' := by
  intro ac
  induction ac with
  | nil =>
    intro m m' hm h
    simp only [buildArrayPass] at h
    cases h
    exact hm
  | cons p rest ih =>
    intro m m' hm h
    obtain ⟨origName, count⟩ := p
    simp only [buildArrayPass] at h
    split at h
    · cases h
    · split at h
      · exact ih m m' hm h
      · refine ih _ m' ?_ h
        refine addScalarColumns_wf ?_ _ _ (mapInsert_wf hm ?_)
        · exact parseColumnType_wf _
        · show WFColumnType (mkArrayColumnType (ParseColumnType _)) = true
          rw [mkArrayColumnType_wf]
          exact parseColumnType_wf _

theorem buildNormalPass_wf (types tags : List Str) (pn : List (Str × Str)) :
    ∀ (names : List Str) (i : Nat) (m m' : List (Str × Column)), mapWF m →
      buildNormalPass types tags pn i names m = .ok m' → mapWF m' := by
  intro names
  induction names with
  | nil =>
    intro i m m' hm h
    simp only [buildNormalPass] at h
    cases h
    exact hm
  | cons name rest ih =>
    intro i m m' hm h
    simp only [buildNormalPass] at h
    split at h
    · exact ih _ m m' hm h
    · split at h
      · cases h
      · split at h
        · exact ih _ m m' hm h
        · split at h <;> split at h <;>
            first
            | exact ih _ m m' hm h
            | exact ih _ _ m' (mapInsert_wf hm (parseColumnType_wf _)) h

theorem sortColumnsByName_mem {c : Column} {l : List Column} :
    c ∈ sortColumnsByName l ↔ c ∈ l :=
  (List.perm_insertionSort _ l).mem_iff

theorem buildColumns_wf (fieldNames types tags : List Str) (cols : List Column)
    (h : BuildColumns fieldNames types tags = .ok cols) :
    ∀ c ∈ cols, WFColumnType c.Ty = true := by
  simp only [BuildColumns] at h
  split at h
  · exact Except.noConfusion h
  · next m harr =>
    split at h
    · exact Except.noConfusion h
    · next m2 hnorm =>
      cases h
      have hm : mapWF m :=
        buildArrayPass_wf fieldNames types _ _ [] m (by intro p hp; cases hp) harr
      have hm2 : mapWF m2 := buildNormalPass_wf types tags _ fieldNames 0 m m2 hm hnorm
      intro c hc
      obtain ⟨p, hp, hpc⟩ := List.mem_map.mp (sortColumnsByName_mem.mp hc)
      rw [← hpc]
      exact hm2 p hp

/-! ## Claim theorems -/

/-- C1: the claim says a field name occurring N times with an `array<...>`
type yields one aggregate column plus N scalar `Name_i` columns.  The code
keys `arrayColumnCounts` by the *formatted* name but looks the counts up
through `processedNames`, which is keyed by the *raw trimmed* name; for any
header whose raw spelling differs from its normalized spelling (here
`skills` vs `Skills`) the lookup misses, the whole array expansion is
skipped, and the sheet gets a single column carrying the raw array type —
no `Skills_0..2` scalar columns (this also matches the repository's own
committed artifact, part_008).  When the raw header already equals its
normalized form (`Skills`), the claimed expansion does happen (second
conjunct). -/
theorem c1_array_expansion_key_mixup :
    BuildColumns [str "skills", str "skills", str "skills"]
        [str "array<string>", str "array<string>", str "array<string>"] [[], [], []]
      = .ok [⟨str "Skills", mkArrayColumnType StringType, [], false⟩]
  ∧ BuildColumns [str "Skills", str "Skills", str "Skills"]
        [str "array<string>", str "array<string>", str "array<string>"] [[], [], []]
      = .ok [aggregateColumn (str "Skills") StringType,
             scalarExpansionColumn (str "Skills") StringType 0,
             scalarExpansionColumn (str "Skills") StringType 1,
             scalarExpansionColumn (str "Skills") StringType 2] :=
  ⟨rfl, rfl⟩

/-- C5: the claim says design-only columns are excluded from every
column-building path before any other processing.  Both paths violate it:
(1) in the exporter's `parseSheet`, `tagInfoMap` has no entry for
`TagDesign`, so `ParseTag "design"` yields `TagNone`, the
`HasTag(..., TagDesign)` guard is dead code, and the design column is
*included* in the output; (2) in `BuildColumns`, the reserved-name check
runs *before* the design skip, so a design-tagged column named `id` aborts
the table instead of being excluded. -/
theorem c5_design_only_not_excluded :
    (exporter.parseSheet (str "Item") [[str "desc"], [str "design"], [str "string"]]).Columns
      = [⟨str "Desc", StringType, [], false⟩]
  ∧ BuildColumns [str "id"] [str "string"] [str "design"]
      = .error (reservedNameError (str "Id")) :=
  ⟨rfl, rfl⟩

/-- C3 counterexample: `ParseColumnType "array<array<int>>"` produces an
array whose `BaseType` is itself an array, contradicting the claim that
array-of-array is never produced. -/
theorem c3_array_of_array_produced :
    (ParseColumnType (str "array<array<int>>")).IsArray = true
  ∧ ((ParseColumnType (str "array<array<int>>")).BaseType.map ColumnType.IsArray)
      = some true :=
  ⟨rfl, rfl⟩

/-- C3 (amended): for every `ColumnType` the program produces — any
`ParseColumnType` result and the type of every column in a successful
`BuildColumns` output — `BaseType` is non-nil iff `IsArray` holds, at every
nesting level (`WFColumnType`).  The claim's second half (array-of-array is
never produced) is dropped: it fails on nested declarations. -/
theorem c3_baseType_iff_isArray :
    (∀ t : Str, WFColumnType (ParseColumnType t) = true)
  ∧ (∀ fieldNames types tags cols, BuildColumns fieldNames types tags = .ok cols →
      ∀ c ∈ cols, WFColumnType c.Ty = true) :=
  ⟨parseColumnType_wf, buildColumns_wf⟩

/-- C3 witness: the invariant, evaluated on a concrete build. -/
theorem c3_baseType_iff_isArray_witness :
    BuildColumns [str "Name"] [str "array<int>"] []
      = .ok [aggregateColumn (str "Name") Int32Type,
             scalarExpansionColumn (str "Name") Int32Type 0]
  ∧ WFColumnType (aggregateColumn (str "Name") Int32Type).Ty = true := by
  constructor
  · rfl
  · exact c3_baseType_iff_isArray.2 [str "Name"] [str "array<int>"] []
      [aggregateColumn (str "Name") Int32Type, scalarExpansionColumn (str "Name") Int32Type 0]
      rfl _ (List.mem_cons_self _ _)

/-- C6: `ParseColumnType t` is an array iff the trimmed, lower-cased input
matches `array<...>` (prefix `array<`, suffix `>`), in which case the base
type is the recursive parse of the inner string; every non-array token
outside the fixed synonym table yields `StringType`; and the function is
total — it never returns an error (it is a plain function into
`ColumnType`). -/
theorem c6_parseColumnType_spec (t : Str) :
    ((ParseColumnType t).IsArray = true ↔
      (hasPrefixGo (str "array<") (trimSpace (toLower t)) = true ∧
        hasSuffix (str ">") (trimSpace (toLower t)) = true))
  ∧ (hasPrefixGo (str "array<") (trimSpace (toLower t)) = true ∧
        hasSuffix (str ">") (trimSpace (toLower t)) = true →
      (ParseColumnType t).BaseType
        = some (ParseColumnType (innerTypeStr (trimSpace (toLower t)))))
  ∧ (¬ (hasPrefixGo (str "array<") (trimSpace (toLower t)) = true ∧
        hasSuffix (str ">") (trimSpace (toLower t)) = true) →
      trimSpace (toLower t) ∉ typeSynonyms → ParseColumnType t = StringType) := by
  have heq := ParseColumnType_eq t
  by_cases hc : hasPrefixGo (str "array<") (trimSpace (toLower t)) = true ∧
      hasSuffix (str ">") (trimSpace (toLower t)) = true
  · rw [if_pos hc] at heq
    refine ⟨?_, fun _ => ?_, fun hn _ => absurd hc hn⟩
    · rw [heq]
      simp only [mkArrayColumnType, ColumnType.IsArray, true_iff]
      exact hc
    · rw [heq]
      rfl
  · rw [if_neg hc] at heq
    refine ⟨?_, fun hcc => absurd hcc hc, fun _ hsyn => ?_⟩
    · rw [heq, parseScalarType_isArray]
      simpa using hc
    · rw [heq]
      exact parseScalarType_default _ hsyn

/-- C6 witness: the characterization evaluated at `array<int>` and at an
unrecognized token. -/
theorem c6_parseColumnType_spec_witness :
    (ParseColumnType (str "array<int>")).IsArray = true
  ∧ (ParseColumnType (str "array<int>")).BaseType = some (ParseColumnType (str "int"))
  ∧ ParseColumnType (str "foo") = StringType := by
  refine ⟨?_, ?_, ?_⟩
  · exact (c6_parseColumnType_spec (str "array<int>")).1.mpr (by decide)
  · exact (c6_parseColumnType_spec (str "array<int>")).2.1 (by decide)
  · exact (c6_parseColumnType_spec (str "foo")).2.2 (by decide) (by decide)

theorem dquote_ne (n : Str) : dquote n ≠ n := by
  intro h
  have hl := congrArg List.length h
  have h1 : (str "\"").length = 1 := rfl
  simp only [dquote, List.length_append, h1] at hl
  omega

/-- C9: the `main`-package `QuoteIdentifier` wraps a name in double quotes
exactly when its lower-cased form is in the fixed SQL reserved-word set, and
returns it unchanged otherwise; the DDL-synthesis path's
`exporter.QuoteIdentifier` additionally quotes names containing a space or a
character from the fixed punctuation set `-+()[]{}.,;`.  In particular
`QuoteIdentifier "select"` is `"select"` quoted, `QuoteIdentifier "name"` is
unchanged, and `"Level Req"` is quoted in the DDL-synthesis path. -/
theorem c9_quoteIdentifier_spec :
    (∀ name : Str,
      (QuoteIdentifier name = dquote name ↔
        sqliteReservedWords.contains (toLower name) = true)
      ∧ (QuoteIdentifier name = name ↔
        sqliteReservedWords.contains (toLower name) = false))
  ∧ (∀ name : Str,
      (exporter.QuoteIdentifier name = dquote name ↔
        (sqliteReservedWords.contains (toLower name) = true ∨
          containsAny name (str " -+()[]\x7b\x7d.,;") = true))
      ∧ (exporter.QuoteIdentifier name = name ↔
        (sqliteReservedWords.contains (toLower name) = false ∧
          containsAny name (str " -+()[]\x7b\x7d.,;") = false)))
  ∧ QuoteIdentifier (str "select") = dquote (str "select")
  ∧ QuoteIdentifier (str "name") = str "name"
  ∧ exporter.QuoteIdentifier (str "Level Req") = dquote (str "Level Req") := by
  refine ⟨fun name => ?_, fun name => ?_, rfl, rfl, rfl⟩
  · unfold QuoteIdentifier
    by_cases h : sqliteReservedWords.contains (toLower name) = true
    · rw [if_pos h]
      refine ⟨⟨fun _ => h, fun _ => rfl⟩, ⟨fun hd => absurd hd (dquote_ne name), fun hf => ?_⟩⟩
      rw [h] at hf
      exact absurd hf (by simp)
    · rw [if_neg h]
      have hf : sqliteReservedWords.contains (toLower name) = false := by simpa using h
      exact ⟨⟨fun hn => absurd hn.symm (dquote_ne name), fun ht => absurd ht h⟩,
             ⟨fun _ => hf, fun _ => rfl⟩⟩
  · unfold exporter.QuoteIdentifier
    by_cases h1 : sqliteReservedWords.contains (toLower name) = true
    · rw [if_pos h1]
      refine ⟨⟨fun _ => Or.inl h1, fun _ => rfl⟩,
              ⟨fun hd => absurd hd (dquote_ne name), fun hf => ?_⟩⟩
      rw [hf.1] at h1
      exact absurd h1 (by simp)
    · rw [if_neg h1]
      have hf1 : sqliteReservedWords.contains (toLower name) = false := by simpa using h1
      by_cases h2 : containsAny name (str " -+()[]\x7b\x7d.,;") = true
      · rw [if_pos h2]
        refine ⟨⟨fun _ => Or.inr h2, fun _ => rfl⟩,
                ⟨fun hd => absurd hd (dquote_ne name), fun hf => ?_⟩⟩
        rw [hf.2] at h2
        exact absurd h2 (by simp)
      · rw [if_neg h2]
        have hf2 : containsAny name (str " -+()[]\x7b\x7d.,;") = false := by simpa using h2
        exact ⟨⟨fun hn => absurd hn.symm (dquote_ne name),
                fun ht => ht.elim (fun a => absurd a h1) (fun a => absurd a h2)⟩,
               ⟨fun _ => ⟨hf1, hf2⟩, fun _ => rfl⟩⟩

theorem hasPrefixGo_append_self (p x : Str) : hasPrefixGo p (p ++ x) = true :=
  isPrefixOf_iff_pre.mpr (List.prefix_append p x)

/-- C8 counterexample: the `generateSQLSchema` path emits its `CREATE TABLE`
without `IF NOT EXISTS`, so re-executing that DDL against the same store is
not a no-op. -/
theorem c8_generateSQLSchema_create_table_bare :
    hasPrefixGo (str "CREATE TABLE IF NOT EXISTS")
      (generateSQLSchema
        ⟨str "Character", [], [], [], [⟨str "Name", StringType, [], false⟩], []⟩) = false
  ∧ hasPrefixGo (str "CREATE TABLE character (")
      (generateSQLSchema
        ⟨str "Character", [], [], [], [⟨str "Name", StringType, [], false⟩], []⟩) = true :=
  ⟨rfl, rfl⟩

/-- C8 (amended): every `CREATE INDEX` statement of both synthesis paths
uses `IF NOT EXISTS`, and the exporter's `buildCreateTableQuery` emits
`CREATE TABLE IF NOT EXISTS`; but `generateSQLSchema`'s `CREATE TABLE` omits
`IF NOT EXISTS` (see the counterexample), so only the exporter path's DDL is
idempotent. -/
theorem c8_if_not_exists (table : Table) (etable : exporter.Table) :
    hasPrefixGo (str "CREATE TABLE IF NOT EXISTS ")
      (exporter.buildCreateTableQuery etable) = true
  ∧ (∀ q ∈ exporter.createIndexStatements etable,
      hasPrefixGo (str "CREATE INDEX IF NOT EXISTS ") q = true)
  ∧ (∀ q ∈ generateIndexDefs table,
      hasPrefixGo (str "CREATE INDEX IF NOT EXISTS ") q = true) := by
  refine ⟨?_, ?_, ?_⟩
  · unfold exporter.buildCreateTableQuery
    simp only [List.append_assoc]
    exact hasPrefixGo_append_self _ _
  · intro q hq
    unfold exporter.createIndexStatements at hq
    have hcut : str "CREATE INDEX IF NOT EXISTS idx_"
        = str "CREATE INDEX IF NOT EXISTS " ++ str "idx_" := rfl
    rcases List.mem_append.mp hq with hq | hq <;>
      · obtain ⟨x, _, hx⟩ := List.mem_map.mp hq
        rw [← hx, hcut]
        simp only [List.append_assoc]
        exact hasPrefixGo_append_self _ _
  · intro q hq
    unfold generateIndexDefs at hq
    obtain ⟨x, _, hx⟩ := List.mem_map.mp hq
    rw [← hx]
    simp only [List.append_assoc]
    exact hasPrefixGo_append_self _ _

/-- C8 witness: the idempotent forms, evaluated on a concrete table. -/
theorem c8_if_not_exists_witness :
    hasPrefixGo (str "CREATE TABLE IF NOT EXISTS ")
      (exporter.buildCreateTableQuery
        ⟨str "Post", str "Post", [⟨str "Title", StringType, [⟨.TagIndex, []⟩], false⟩], []⟩)
      = true
  ∧ hasPrefixGo (str "CREATE INDEX IF NOT EXISTS ")
      (str "CREATE INDEX IF NOT EXISTS idx_Post_Title ON Post(Title);") = true := by
  refine ⟨(c8_if_not_exists ⟨[], [], [], [], [], []⟩
    ⟨str "Post", str "Post", [⟨str "Title", StringType, [⟨.TagIndex, []⟩], false⟩], []⟩).1, ?_⟩
  refine (c8_if_not_exists ⟨[], [], [], [], [], []⟩
    ⟨str "Post", str "Post", [⟨str "Title", StringType, [⟨.TagIndex, []⟩], false⟩], []⟩).2.1 _ ?_
  have hc : exporter.createIndexStatements
      ⟨str "Post", str "Post", [⟨str "Title", StringType, [⟨.TagIndex, []⟩], false⟩], []⟩
      = [str "CREATE INDEX IF NOT EXISTS idx_Post_Title ON Post(Title);"] := rfl
  rw [hc]
  exact List.mem_singleton.mpr rfl

theorem plainColumnDef_split (col : Column) :
    plainColumnDef col
      = (str "    " ++ QuoteIdentifier col.Name ++ str " ") ++
        (col.Ty.SQLTypeString
          ++ ((if col.IsUnique then str " UNIQUE" else [])
            ++ ((if containsStr col.Tags (str "not null") then str " NOT NULL" else [])
              ++ (if extractDefaultValue col.Tags = [] then []
                  else str " DEFAULT " ++ extractDefaultValue col.Tags)))) := by
  unfold plainColumnDef
  simp [List.append_assoc]

theorem generateColumnDefsAux_arrayfree (allCols : List Column) :
    ∀ cols : List Column, (∀ c ∈ cols, c.Ty.IsArray = false) →
      generateColumnDefsAux allCols cols [] = cols.map plainColumnDef := by
  intro cols
  induction cols with
  | nil => intro _; rfl
  | cons col rest ih =>
    intro h
    have hcol : col.Ty.IsArray = false := h col (List.mem_cons_self _ _)
    simp only [generateColumnDefsAux, hcol, Bool.false_eq_true, if_false, List.any_nil,
      List.map_cons]
    rw [ih (fun c hc => h c (List.mem_cons_of_mem _ hc))]

/-- C2 counterexample: a built table on which the DDL clause sequence is not
name-for-name the INSERT column sequence — the non-array column `A_extra`
begins with the aggregate `A`'s name plus `_`, so `generateSQLSchema` skips
it while `prepareInsertSQL` keeps it (2 DDL clauses vs 3 INSERT names). -/
theorem c2_ddl_insert_misalignment :
    BuildColumns [str "A", str "A_extra"] [str "array<string>", str "string"] [[], []]
      = .ok [aggregateColumn (str "A") StringType,
             scalarExpansionColumn (str "A") StringType 0,
             ⟨str "A_extra", StringType, [], false⟩]
  ∧ (generateColumnDefs ⟨str "T", [], [], [],
      [aggregateColumn (str "A") StringType,
       scalarExpansionColumn (str "A") StringType 0,
       ⟨str "A_extra", StringType, [], false⟩], []⟩).length = 2
  ∧ (insertColumnNames ⟨str "T", [], [], [],
      [aggregateColumn (str "A") StringType,
       scalarExpansionColumn (str "A") StringType 0,
       ⟨str "A_extra", StringType, [], false⟩], []⟩).length = 3 :=
  ⟨rfl, rfl, rfl⟩

/-- C2 (amended): for every table all of whose columns are non-array, the
per-column clause sequence of the generated `CREATE TABLE` statement is
aligned name for name, in order, with the quoted column-name sequence of the
generated `INSERT` statement: the two lists have equal length and the i-th
DDL clause begins with `    <i-th INSERT name> `.  In the presence of array
columns the alignment can fail (see the counterexample). -/
theorem c2_ddl_insert_alignment (table : Table)
    (h : ∀ c ∈ table.Columns, c.Ty.IsArray = false) :
    List.Forall₂ (fun clause name => hasPrefixGo (str "    " ++ name ++ str " ") clause = true)
      (generateColumnDefs table) (insertColumnNames table) := by
  unfold generateColumnDefs insertColumnNames
  rw [generateColumnDefsAux_arrayfree _ _ h]
  have hR : ∀ col : Column,
      hasPrefixGo (str "    " ++ QuoteIdentifier col.Name ++ str " ") (plainColumnDef col)
        = true := by
    intro col
    rw [plainColumnDef_split]
    exact hasPrefixGo_append_self _ _
  generalize table.Columns = l
  induction l with
  | nil => exact List.Forall₂.nil
  | cons x l ih => exact List.Forall₂.cons (hR x) ih

/-- C2 witness: the alignment on a concrete two-column table. -/
theorem c2_ddl_insert_alignment_witness :
    List.Forall₂ (fun clause name => hasPrefixGo (str "    " ++ name ++ str " ") clause = true)
      (generateColumnDefs ⟨str "User", [], [], [],
        [⟨str "Age", Int32Type, [], false⟩, ⟨str "Name", StringType, [], false⟩], []⟩)
      (insertColumnNames ⟨str "User", [], [], [],
        [⟨str "Age", Int32Type, [], false⟩, ⟨str "Name", StringType, [], false⟩], []⟩) := by
  refine c2_ddl_insert_alignment _ ?_
  intro c hc
  rcases List.mem_cons.mp hc with rfl | hc
  · rfl
  · rcases List.mem_cons.mp hc with rfl | hc
    · rfl
    · cases hc

/-- C7 counterexample: two non-array header fields that normalize to the same
column name (`level req` and `Level req` both become `LevelReq`) do NOT make
`BuildColumns` return a build error — the builder succeeds and silently keeps
only the first occurrence's column. -/
theorem c7_collision_not_an_error :
    BuildColumns [str "level req", str "Level req"] [str "int", str "string"] [[], []]
      = .ok [⟨str "LevelReq", Int32Type, [], false⟩] :=
  rfl

/-- C7 (amended): when two non-blank, non-array header fields of a sheet
normalize to the same non-reserved column name, `BuildColumns` does not fail;
it silently resolves the collision in favor of the first occurrence, whose
declared type determines the single resulting column.  (Only reserved-name
collisions are build errors.) -/
theorem c7_collision_silently_resolved (n1 n2 t1 t2 : Str)
    (h1 : trimSpace n1 ≠ []) (h2 : trimSpace n2 ≠ [])
    (hf : FormatColumnName (trimSpace n2) = FormatColumnName (trimSpace n1))
    (hr : IsReservedColumnName (FormatColumnName (trimSpace n1)) = false)
    (ha1 : hasPrefixGo (str "array<") (trimSpace t1) = false)
    (ha2 : hasPrefixGo (str "array<") (trimSpace t2) = false) :
    BuildColumns [n1, n2] [t1, t2] [[], []]
      = .ok [⟨FormatColumnName (trimSpace n1), ParseColumnType (trimSpace t1), [], false⟩] := by
  have hgorm : parseTagToGORMTag (trimSpace []) = [] := rfl
  have huniq : containsStr (trimSpace []) (str "unique") = false := rfl
  have hdes : containsStr (trimSpace []) (str "design") = false := rfl
  by_cases he : trimSpace n1 = trimSpace n2
  · simp [BuildColumns, buildPass1, buildArrayPass, buildNormalPass, mapInsert, mapContains,
      mapGet, sortColumnsByName, List.insertionSort, h1, h2, hf, hr, ha1, ha2, he, hgorm,
      huniq, hdes]
  · simp [BuildColumns, buildPass1, buildArrayPass, buildNormalPass, mapInsert, mapContains,
      mapGet, sortColumnsByName, List.insertionSort, h1, h2, hf, hr, ha1, ha2, he, hgorm,
      huniq, hdes]

/-- C7 witness: the silent resolution at a concrete colliding header pair. -/
theorem c7_collision_silently_resolved_witness :
    BuildColumns [str "skill name", str "Skill name"] [str "float64", str "bool"] [[], []]
      = .ok [⟨str "SkillName", Float64Type, [], false⟩] := by
  have h := c7_collision_silently_resolved (str "skill name") (str "Skill name")
    (str "float64") (str "bool") (by decide) (by decide) rfl rfl rfl rfl
  exact h

theorem timeParseLoop_all_fail (c v : Str) :
    ∀ l : List timeFormat, (∀ tf ∈ l, goTimeParse tf.format v = none) →
      timeParseLoop c v l = .error (timeParseError c v) := by
  intro l
  induction l with
  | nil => intro _; rfl
  | cons tf rest ih =>
    intro h
    have h0 := h tf (List.mem_cons_self _ _)
    simp only [timeParseLoop, h0]
    exact ih (fun tf' htf' => h tf' (List.mem_cons_of_mem _ htf'))

theorem timeParseLoop_first_success (c v : Str) :
    ∀ (l : List timeFormat) (i : Nat) (tf : timeFormat) (t : GoTime),
      (∀ j, j < i → ∀ tf', l[j]? = some tf' → goTimeParse tf'.format v = none) →
      l[i]? = some tf → goTimeParse tf.format v = some t →
      timeParseLoop c v l = .ok (timeNormalize tf v t) := by
  intro l
  induction l with
  | nil => intro i tf t _ hi; simp at hi
  | cons tf0 rest ih =>
    intro i tf t hprev hi hsucc
    cases i with
    | zero =>
      simp only [List.getElem?_cons_zero, Option.some.injEq] at hi
      subst hi
      simp only [timeParseLoop, hsucc]
    | succ i =>
      have h0 : goTimeParse tf0.format v = none :=
        hprev 0 (Nat.succ_pos _) tf0 (by simp)
      simp only [timeParseLoop, h0]
      refine ih i tf t ?_ ?_ hsucc
      · intro j hj tf' hj'
        exact hprev (j + 1) (Nat.succ_lt_succ hj) tf' (by simpa using hj')
      · simpa using hi

/-- C4: for every non-blank cell string, `TimeParser.Parse` tries the fixed
ordered format list (`timeParserFormats`: fractional-second variants with and
without a `Z` suffix, plain date-time with a space or a `T` separator, and
date-only) and the first successful `time.Parse` wins, post-processed by
`timeNormalize` — which normalizes to UTC exactly when the matched format
lacked a zone marker (`hasChanged` false), the value contains none of
`Z z + -`, and the clock components are not all zero (date-only values are
left as-is); when every format fails the parser returns the parse error. -/
theorem c4_timeparser_first_match (columnName value : Str) (hv : trimSpace value ≠ []) :
    ((∀ tf ∈ timeParserFormats, goTimeParse tf.format (trimSpace value) = none) →
      TimeParser.Parse columnName value = .error (timeParseError columnName (trimSpace value)))
  ∧ (∀ (i : Nat) (tf : timeFormat) (t : GoTime),
      (∀ j, j < i → ∀ tf', timeParserFormats[j]? = some tf' →
        goTimeParse tf'.format (trimSpace value) = none) →
      timeParserFormats[i]? = some tf →
      goTimeParse tf.format (trimSpace value) = some t →
      TimeParser.Parse columnName value = .ok (timeNormalize tf (trimSpace value) t)) := by
  constructor
  · intro hall
    simp only [TimeParser.Parse]
    rw [if_neg hv]
    exact timeParseLoop_all_fail _ _ _ hall
  · intro i tf t hprev hi hsucc
    simp only [TimeParser.Parse]
    rw [if_neg hv]
    exact timeParseLoop_first_success _ _ _ i tf t hprev hi hsucc

/-- C4 witness: the first-match rule at a concrete parseable value and the
error at a value no format matches. -/
theorem c4_timeparser_first_match_witness :
    trimSpace (str "2024-01-02 15:04:05") ≠ []
  ∧ TimeParser.Parse (str "hired_at") (str "2024-01-02 15:04:05")
      = .ok ⟨2024, 1, 2, 15, 4, 5, 0, true⟩
  ∧ TimeParser.Parse (str "hired_at") (str "not-a-date")
      = .error (timeParseError (str "hired_at") (str "not-a-date")) := by
  refine ⟨by decide, ?_, ?_⟩
  · have h := (c4_timeparser_first_match (str "hired_at") (str "2024-01-02 15:04:05")
      (by decide)).2 0 ⟨.dateTime ' ' true false, false⟩ ⟨2024, 1, 2, 15, 4, 5, 0, true⟩
      (fun j hj => absurd hj (Nat.not_lt_zero j)) rfl rfl
    exact h.trans rfl
  · exact (c4_timeparser_first_match (str "hired_at") (str "not-a-date") (by decide)).1
      (by decide)

/-! ## Lemmas about name normalization (`FormatColumnName`) -/

theorem charLe_toNat {a b : Char} (h : a ≤ b) : a.toNat ≤ b.toNat := Char.le_def.mp h

theorem toUpperChar_toNat_of_lower {c : Char} (h : 'a' ≤ c ∧ c ≤ 'z') :
    (toUpperChar c).toNat = c.toNat - 32 := by
  unfold toUpperChar
  rw [if_pos h]
  have hn1 : 97 ≤ c.toNat := charLe_toNat h.1
  have hn2 : c.toNat ≤ 122 := charLe_toNat h.2
  have hv : c.toNat - 32 < 55296 := by omega
  unfold Char.ofNat
  rw [dif_pos (Or.inl hv)]
  simp [Char.ofNatAux, Char.toNat, UInt32.ofNat', UInt32.toNat, BitVec.ofNatLt]

theorem toUpperChar_eq_of_not_lower {c : Char} (h : ¬ ('a' ≤ c ∧ c ≤ 'z')) :
    toUpperChar c = c := by
  unfold toUpperChar
  rw [if_neg h]

theorem toUpperChar_idem (c : Char) : toUpperChar (toUpperChar c) = toUpperChar c := by
  by_cases h : 'a' ≤ c ∧ c ≤ 'z'
  · refine toUpperChar_eq_of_not_lower ?_
    intro hcon
    have h1 : 97 ≤ (toUpperChar c).toNat := charLe_toNat hcon.1
    have h2 := toUpperChar_toNat_of_lower h
    have h3 : c.toNat ≤ 122 := charLe_toNat h.2
    omega
  · rw [toUpperChar_eq_of_not_lower h]
    exact toUpperChar_eq_of_not_lower h

theorem isSpaceGo_false_of_33_le {u : Char} (h : 33 ≤ u.toNat) : isSpaceGo u = false := by
  simp only [isSpaceGo, decide_eq_false_iff_not]
  rintro (rfl | rfl | rfl | rfl | rfl | rfl) <;> exact absurd h (by decide)

theorem isSpaceGo_toUpperChar (c : Char) : isSpaceGo (toUpperChar c) = isSpaceGo c := by
  by_cases h : 'a' ≤ c ∧ c ≤ 'z'
  · have hu := toUpperChar_toNat_of_lower h
    have h1 : 97 ≤ c.toNat := charLe_toNat h.1
    have h2 : c.toNat ≤ 122 := charLe_toNat h.2
    rw [isSpaceGo_false_of_33_le (by omega), isSpaceGo_false_of_33_le (by omega)]
  · rw [toUpperChar_eq_of_not_lower h]

theorem fieldsAux_words {s : Str} : ∀ cur : Str, noWS cur →
    ∀ w ∈ fieldsAux cur s, w ≠ [] ∧ noWS w := by
  induction s with
  | nil =>
    intro cur hcur w hw
    simp only [fieldsAux] at hw
    split at hw
    · cases hw
    · next hne =>
      rw [List.mem_singleton] at hw
      subst hw
      refine ⟨by simpa using hne, ?_⟩
      intro ch hch
      exact hcur ch (List.mem_reverse.mp hch)
  | cons c rest ih =>
    intro cur hcur w hw
    simp only [fieldsAux] at hw
    split at hw
    · split at hw
      · exact ih [] (fun x hx => absurd hx (List.not_mem_nil x)) w hw
      · next hne =>
        rcases List.mem_cons.mp hw with rfl | hw
        · refine ⟨by simpa using hne, ?_⟩
          intro ch hch
          exact hcur ch (List.mem_reverse.mp hch)
        · exact ih [] (fun x hx => absurd hx (List.not_mem_nil x)) w hw
    · next hns =>
      refine ih (c :: cur) ?_ w hw
      intro x hx
      rcases List.mem_cons.mp hx with rfl | hx
      · simpa using hns
      · exact hcur x hx

theorem fieldsAux_noWS {s : Str} (hs : noWS s) :
    ∀ cur : Str, cur ≠ [] ∨ s ≠ [] → fieldsAux cur s = [cur.reverse ++ s] := by
  induction s with
  | nil =>
    intro cur h
    rcases h with h | h
    · simp [fieldsAux, h]
    · exact absurd rfl h
  | cons c rest ih =>
    intro cur _
    have hc : isSpaceGo c = false := hs c (List.mem_cons_self _ _)
    simp only [fieldsAux, hc, Bool.false_eq_true, if_false]
    rw [ih (fun x hx => hs x (List.mem_cons_of_mem _ hx)) (c :: cur) (Or.inl (by simp))]
    simp

theorem joinAll_noWS {l : List Str} (h : ∀ w ∈ l, noWS w) : noWS (joinAll l) := by
  induction l with
  | nil => intro c hc; cases hc
  | cons w l ih =>
    intro c hc
    simp only [joinAll, List.foldr_cons] at hc
    rcases List.mem_append.mp hc with hc | hc
    · exact h w (List.mem_cons_self _ _) c hc
    · exact ih (fun w' hw' => h w' (List.mem_cons_of_mem _ hw')) c hc

theorem dropWhile_eq_self_of_false {l : Str} (p : Char → Bool)
    (h : ∀ c ∈ l, p c = false) : l.dropWhile p = l := by
  cases l with
  | nil => rfl
  | cons c rest =>
    have := h c (List.mem_cons_self _ _)
    simp [List.dropWhile, this]

theorem trimSpace_of_noWS {s : Str} (h : noWS s) : trimSpace s = s := by
  unfold trimSpace
  rw [dropWhile_eq_self_of_false _ h,
    dropWhile_eq_self_of_false _ (fun c hc => h c (List.mem_reverse.mp hc)),
    List.reverse_reverse]

theorem capFirst_joinAll (l : List Str) (h : ∀ w ∈ l, w ≠ []) :
    capFirst (joinAll (l.map capFirst)) = joinAll (l.map capFirst) := by
  cases l with
  | nil => rfl
  | cons w l =>
    cases w with
    | nil => exact absurd rfl (h _ (List.mem_cons_self _ _))
    | cons c t =>
      simp only [List.map_cons, joinAll, List.foldr_cons, capFirst, List.cons_append]
      rw [toUpperChar_idem]

/-- C10 counterexample: the normalization maps the non-reserved name `i d`
onto `ID`, which is (case-insensitively) the reserved system column name
`id` — so a non-reserved input can falsely collide with the reserved set. -/
theorem c10_normalize_hits_reserved_name :
    FormatColumnName (str "i d") = str "ID"
  ∧ IsReservedColumnName (str "ID") = true
  ∧ IsReservedColumnName (str "i d") = false :=
  ⟨rfl, rfl, rfl⟩

/-- C10 (amended): the column-name normalization is idempotent —
`FormatColumnName (FormatColumnName n) = FormatColumnName n` for every name.
The claim's second half is dropped: a non-reserved input *can* normalize to a
reserved system column name (see the counterexample `i d ↦ ID`). -/
theorem c10_formatColumnName_idempotent (n : Str) :
    FormatColumnName (FormatColumnName n) = FormatColumnName n := by
  by_cases h0 : trimSpace n = []
  · have h1 : FormatColumnName n = [] := by unfold FormatColumnName; rw [if_pos h0]
    rw [h1]
    rfl
  · have hout : FormatColumnName n = joinAll ((fields (trimSpace n)).map capFirst) := by
      unfold FormatColumnName
      rw [if_neg h0]
    have hwords : ∀ w ∈ fields (trimSpace n), w ≠ [] ∧ noWS w :=
      fieldsAux_words [] (fun x hx => absurd hx (List.not_mem_nil x))
    have hwords' : ∀ w ∈ (fields (trimSpace n)).map capFirst, w ≠ [] ∧ noWS w := by
      intro w hw
      obtain ⟨w0, hw0, hww⟩ := List.mem_map.mp hw
      obtain ⟨hne, hns⟩ := hwords w0 hw0
      cases w0 with
      | nil => exact absurd rfl hne
      | cons c t =>
        subst hww
        refine ⟨by simp [capFirst], ?_⟩
        intro ch hch
        rcases List.mem_cons.mp hch with rfl | hch
        · rw [isSpaceGo_toUpperChar]
          exact hns c (List.mem_cons_self _ _)
        · exact hns ch (List.mem_cons_of_mem _ hch)
    have hnout : noWS (FormatColumnName n) := by
      rw [hout]
      exact joinAll_noWS (fun w hw => (hwords' w hw).2)
    by_cases hempty : FormatColumnName n = []
    · rw [hempty]
      rfl
    · have htrim : trimSpace (FormatColumnName n) = FormatColumnName n :=
        trimSpace_of_noWS hnout
      have hstep : FormatColumnName (FormatColumnName n) =
          if trimSpace (FormatColumnName n) = [] then []
          else joinAll ((fields (trimSpace (FormatColumnName n))).map capFirst) := rfl
      rw [hstep, htrim, if_neg hempty]
      have hfields : fields (FormatColumnName n) = [FormatColumnName n] := by
        unfold fields
        rw [fieldsAux_noWS hnout [] (Or.inr hempty)]
        simp
      rw [hfields]
      simp only [List.map_cons, List.map_nil, joinAll, List.foldr_cons, List.foldr_nil,
        List.append_nil]
      rw [hout]
      exact capFirst_joinAll _ (fun w hw => (hwords w hw).1)
